import Mathlib

/-!
# Spectral similarity core: shallow embedding and verification

This file embeds the numeric analysis pipeline of the spectral comparison
application (`utils/mathUtils.ts` and the `similarityMatrix` assembler of
`App.tsx`) and proves the specified properties about it.

Number representation: the source computes with JavaScript IEEE doubles;
claims are settled in exact arithmetic.  Wavelengths, absorptions and the
alignment/smoothing/normalization stages are modelled over `ℚ` (the source
operations there are field operations); the similarity metrics, which use
`Math.sqrt` and `Math.log`, are modelled over `ℝ` with `Real.sqrt` and
`Real.log`.
-/

/-- `DataPoint` from `types.ts`: one spectral sample point. -/
structure DataPoint where
  wavelength : ℚ
  absorption : ℚ
  deriving DecidableEq, Repr

instance : Inhabited DataPoint := ⟨⟨0, 0⟩⟩

/-- `NormalizationMethod` from `types.ts`: `'none' | 'area' | 'minmax'`. -/
inductive NormalizationMethod where
  | none
  | area
  | minmax
  deriving DecidableEq, Repr

/-- One point of the common grid produced by `getOverlapData`:
`{ x, yA, yB }`. -/
structure AlignedPair where
  x : ℚ
  yA : ℚ
  yB : ℚ
  deriving DecidableEq, Repr

/-- `applyMovingAverage` inner loop, body of `for (let i = 0; ...)`: sum and
count the values at indices `j ∈ [i - half, i + half]` that satisfy the bounds
check `j >= 0 && j < values.length`, then divide. -/
def maAt {α : Type*} [LinearOrderedField α] (values : List α) (half : ℤ) (i : ℕ) : α :=
  let idx := (Finset.Icc ((i : ℤ) - half) ((i : ℤ) + half)).filter
      (fun j => 0 ≤ j ∧ j < (values.length : ℤ))
  (∑ j ∈ idx, values.getD j.toNat 0) / (idx.card : α)

/-- `applyMovingAverage(values, window)` from `mathUtils.ts`: simple moving
average with truncated boundaries; identity when `window <= 1` or the input is
empty.  `half = Math.floor(window / 2)`; integer division on `ℤ` agrees with
`Math.floor` on the reachable (nonnegative) windows. -/
def applyMovingAverage {α : Type*} [LinearOrderedField α] (values : List α) (window : ℤ) :
    List α :=
  if window ≤ 1 ∨ values.length = 0 then values
  else (List.range values.length).map (maAt values (window / 2))

/-- `data.findIndex(p => p.wavelength >= targetW)`: JavaScript `findIndex`
returns `-1` when no element qualifies, which we reproduce exactly. -/
def findIndexJS (data : List DataPoint) (targetW : ℚ) : ℤ :=
  match data.findIdx? (fun p => targetW ≤ p.wavelength) with
  | Option.none => -1
  | Option.some i => (i : ℤ)

/-- `interpolate(data, targetW)`, the helper closed over by `getOverlapData`:
clamped linear interpolation.  Note the source's `idx >= data.length` branch
is unreachable because `findIndex` yields `-1` (caught by `idx <= 0`) when no
point has `wavelength >= targetW`; the embedding keeps that branch as dead
code, exactly as the source does. -/
def interpolate (data : List DataPoint) (targetW : ℚ) : ℚ :=
  let idx : ℤ := findIndexJS data targetW
  if idx ≤ 0 then (data.headI).absorption
  else if (data.length : ℤ) ≤ idx then (data.getLastI).absorption
  else
    let p1 := data.getD (idx - 1).toNat default
    let p2 := data.getD idx.toNat default
    let t := (targetW - p1.wavelength) / (p2.wavelength - p1.wavelength)
    p1.absorption + t * (p2.absorption - p1.absorption)

/-- Number of iterations of `for (let w = minW; w <= maxW; w += step)` with
`step = 0.5`: the loop visits `w = minW + k * 0.5` for
`k = 0, ..., ⌊(maxW - minW) / 0.5⌋` when `minW ≤ maxW`, none otherwise
(exact rational arithmetic; `0.5` is exact in the source's doubles). -/
def gridCount (minW maxW : ℚ) : ℕ :=
  if minW ≤ maxW then (⌊(maxW - minW) / (1 / 2 : ℚ)⌋).toNat + 1 else 0

/-- `getOverlapData(dataA, dataB)` from `mathUtils.ts`: resample both spectra
onto the common grid `[max(firstA, firstB), min(lastA, lastB)]` stepped by
`0.5`. -/
def getOverlapData (dataA dataB : List DataPoint) : List AlignedPair :=
  if dataA.length = 0 ∨ dataB.length = 0 then []
  else
    let minW := max (dataA.headI).wavelength (dataB.headI).wavelength
    let maxW := min (dataA.getLastI).wavelength (dataB.getLastI).wavelength
    (List.range (gridCount minW maxW)).map (fun (k : ℕ) =>
      let w := minW + (k : ℚ) * (1 / 2 : ℚ)
      ⟨w, interpolate dataA w, interpolate dataB w⟩)

/-- `Math.min(...values)` on a nonempty argument list. -/
def listMin {α : Type*} [LinearOrder α] [Zero α] : List α → α
  | [] => 0
  | x :: xs => xs.foldl min x

/-- `Math.max(...values)` on a nonempty argument list. -/
def listMax {α : Type*} [LinearOrder α] [Zero α] : List α → α
  | [] => 0
  | x :: xs => xs.foldl max x

/-- `normalizeValues(values, method)` from `mathUtils.ts`. -/
def normalizeValues {α : Type*} [LinearOrderedField α] (values : List α)
    (method : NormalizationMethod) : List α :=
  if method = NormalizationMethod.none ∨ values.length = 0 then values
  else if method = NormalizationMethod.area then
    let s := (values.map (fun b => |b|)).sum
    if s = 0 then values else values.map (fun v => v / s)
  else if method = NormalizationMethod.minmax then
    let mn := listMin values
    let mx := listMax values
    let rng := mx - mn
    if rng = 0 then values.map (fun _ => 0) else values.map (fun v => (v - mn) / rng)
  else values


/-- One `{ yA, yB }` element as consumed by the metric functions (the `x`
field of the aligned points is ignored by all metrics). -/
structure YPair where
  yA : ℝ
  yB : ℝ

/-- `calculatePearson(common)` from `mathUtils.ts`. -/
noncomputable def calculatePearson (common : List YPair) : ℝ :=
  let n : ℝ := (common.length : ℝ)
  if common.length < 2 then 0
  else
    let sumA := (common.map (fun p => p.yA)).sum
    let sumB := (common.map (fun p => p.yB)).sum
    let sumASq := (common.map (fun p => p.yA * p.yA)).sum
    let sumBSq := (common.map (fun p => p.yB * p.yB)).sum
    let sumProd := (common.map (fun p => p.yA * p.yB)).sum
    let num := n * sumProd - sumA * sumB
    let den := Real.sqrt ((n * sumASq - sumA * sumA) * (n * sumBSq - sumB * sumB))
    if den = 0 then 0 else num / den

/-- `calculateRMSE(common, method)` from `mathUtils.ts`.  The source's indexed
loop `normA[i] - normB[i]` is rendered as a `zip`; `normalizeValues` preserves
length, so the index ranges coincide. -/
noncomputable def calculateRMSE (common : List YPair) (method : NormalizationMethod) : ℝ :=
  if common.length = 0 then 0
  else
    let normA := normalizeValues (common.map (fun p => p.yA)) method
    let normB := normalizeValues (common.map (fun p => p.yB)) method
    let sumSq := ((normA.zip normB).map (fun q => (q.1 - q.2) ^ 2)).sum
    Real.sqrt (sumSq / (common.length : ℝ))

/-- `calculateEuclidean(common, method)` from `mathUtils.ts`. -/
noncomputable def calculateEuclidean (common : List YPair) (method : NormalizationMethod) : ℝ :=
  if common.length = 0 then 0
  else
    let normA := normalizeValues (common.map (fun p => p.yA)) method
    let normB := normalizeValues (common.map (fun p => p.yB)) method
    let sumSqDiff := ((normA.zip normB).map (fun q => (q.1 - q.2) ^ 2)).sum
    Real.sqrt sumSqDiff

/-- `calculateCosineSimilarity(common)` from `mathUtils.ts`. -/
noncomputable def calculateCosineSimilarity (common : List YPair) : ℝ :=
  let dotProduct := (common.map (fun p => p.yA * p.yB)).sum
  let magA := Real.sqrt ((common.map (fun p => p.yA * p.yA)).sum)
  let magB := Real.sqrt ((common.map (fun p => p.yB * p.yB)).sum)
  if magA = 0 ∨ magB = 0 then 0 else dotProduct / (magA * magB)

/-- `calculateSID(common)` from `mathUtils.ts`: floor both series at `1e-10`,
area-normalize, then sum `(p[i] - q[i]) * (log p[i] - log q[i])`.  The indexed
loop is rendered as a `zip` of the two equal-length normalized lists. -/
noncomputable def calculateSID (common : List YPair) : ℝ :=
  let p := normalizeValues (common.map (fun cp => max (1e-10 : ℝ) cp.yA))
      NormalizationMethod.area
  let q := normalizeValues (common.map (fun cp => max (1e-10 : ℝ) cp.yB))
      NormalizationMethod.area
  ((p.zip q).map (fun pr => (pr.1 - pr.2) * (Real.log pr.1 - Real.log pr.2))).sum

/-- `WaterSample` from `types.ts` (the `color` display attribute is dropped:
it never reaches the numeric core). -/
structure WaterSample where
  id : String
  name : String
  data : List DataPoint

/-- `SimilarityResult` from `types.ts`. -/
structure SimilarityResult where
  sampleA : String
  sampleB : String
  pearson : ℝ
  rmse : ℝ
  euclidean : ℝ
  cosine : ℝ
  sid : ℝ

/-- `MAX_ALLOWED_WAVELENGTH` from `App.tsx`. -/
def MAX_ALLOWED_WAVELENGTH : ℚ := 300

/-- `const calcMethod = normMethod === 'none' ? 'area' : normMethod;`
(`App.tsx`, inside `similarityMatrix`). -/
def calcMethod (normMethod : NormalizationMethod) : NormalizationMethod :=
  if normMethod = NormalizationMethod.none then NormalizationMethod.area else normMethod

/-- Body of the inner loop of `similarityMatrix` (`App.tsx`) for one sample
pair: align, filter to the active range, optionally smooth each series, then
either push the one `SimilarityResult` or nothing. -/
noncomputable def pairEntry (sA sB : WaterSample) (rangeMin rangeMax : ℚ)
    (normMethod : NormalizationMethod) (smoothingEnabled : Bool) (smoothingWindow : ℤ) :
    List SimilarityResult :=
  let common := getOverlapData sA.data sB.data
  let filteredCommon := common.filter
      (fun p => rangeMin ≤ p.x ∧ p.x ≤ min rangeMax MAX_ALLOWED_WAVELENGTH)
  if 0 < filteredCommon.length then
    let yA0 := filteredCommon.map (fun p => p.yA)
    let yB0 := filteredCommon.map (fun p => p.yB)
    let yA := if smoothingEnabled then applyMovingAverage yA0 smoothingWindow else yA0
    let yB := if smoothingEnabled then applyMovingAverage yB0 smoothingWindow else yB0
    let smoothed := (yA.zip yB).map (fun q => YPair.mk (q.1 : ℝ) (q.2 : ℝ))
    [{ sampleA := sA.name
       sampleB := sB.name
       pearson := calculatePearson smoothed
       rmse := calculateRMSE smoothed (calcMethod normMethod)
       euclidean := calculateEuclidean smoothed (calcMethod normMethod)
       cosine := calculateCosineSimilarity smoothed
       sid := calculateSID smoothed }]
  else []

/-- The unordered sample pairs in the order visited by the nested loops
`for i; for j > i` of `similarityMatrix`. -/
def orderedPairs {α : Type*} : List α → List (α × α)
  | [] => []
  | x :: xs => xs.map (fun y => (x, y)) ++ orderedPairs xs

/-- `similarityMatrix` from `App.tsx`: one optional entry per unordered pair,
in first-encountered order. -/
noncomputable def similarityMatrix (samples : List WaterSample) (rangeMin rangeMax : ℚ)
    (normMethod : NormalizationMethod) (smoothingEnabled : Bool) (smoothingWindow : ℤ) :
    List SimilarityResult :=
  (orderedPairs samples).flatMap
    (fun ab => pairEntry ab.1 ab.2 rangeMin rangeMax normMethod smoothingEnabled
      smoothingWindow)

/-! ## Basic lemmas about the embedded operations -/

theorem list_sum_map_div {α : Type*} [DivisionRing α] (l : List α) (c : α) :
    (l.map (fun x => x / c)).sum = l.sum / c := by
  induction l with
  | nil => simp
  | cons a t ih => simp [ih, add_div]

theorem normalizeValues_length {α : Type*} [LinearOrderedField α] (v : List α)
    (m : NormalizationMethod) : (normalizeValues v m).length = v.length := by
  unfold normalizeValues
  split_ifs <;> try rfl
  all_goals dsimp only
  all_goals split_ifs <;> simp

theorem normalizeValues_area_of_sum_ne {α : Type*} [LinearOrderedField α] {v : List α}
    (h : (v.map (fun x => |x|)).sum ≠ 0) :
    normalizeValues v NormalizationMethod.area
      = v.map (fun x => x / (v.map (fun x => |x|)).sum) := by
  have hv : v ≠ [] := by rintro rfl; simp at h
  unfold normalizeValues
  rw [if_neg, if_pos rfl, if_neg h]
  simp [hv]

theorem normalizeValues_area_of_sum_eq {α : Type*} [LinearOrderedField α] {v : List α}
    (h : (v.map (fun x => |x|)).sum = 0) :
    normalizeValues v NormalizationMethod.area = v := by
  unfold normalizeValues
  rcases eq_or_ne v [] with rfl | hv
  · simp
  · rw [if_neg, if_pos rfl, if_pos h]
    simp [hv]

theorem abs_sum_nonneg {α : Type*} [LinearOrderedField α] (v : List α) :
    0 ≤ (v.map (fun x => |x|)).sum :=
  List.sum_nonneg (by intro x hx; rcases List.mem_map.1 hx with ⟨a, _, rfl⟩; exact abs_nonneg a)

/-! Lemmas relating `listMin` / `listMax` to membership. -/

theorem foldl_min_le_init {α : Type*} [LinearOrder α] (xs : List α) (a : α) :
    xs.foldl min a ≤ a := by
  induction xs generalizing a with
  | nil => simp
  | cons x t ih => exact le_trans (ih (min a x)) (min_le_left a x)

theorem foldl_min_le_mem {α : Type*} [LinearOrder α] (xs : List α) (a : α) :
    ∀ x ∈ xs, xs.foldl min a ≤ x := by
  induction xs generalizing a with
  | nil => intro x hx; cases hx
  | cons y t ih =>
      intro x hx
      rcases List.mem_cons.1 hx with rfl | hx
      · exact le_trans (foldl_min_le_init t (min a x)) (min_le_right a x)
      · exact ih (min a y) x hx

theorem foldl_min_mem {α : Type*} [LinearOrder α] (xs : List α) (a : α) :
    xs.foldl min a = a ∨ xs.foldl min a ∈ xs := by
  induction xs generalizing a with
  | nil => left; rfl
  | cons y t ih =>
      rcases ih (min a y) with h | h
      · rcases min_cases a y with ⟨hm, _⟩ | ⟨hm, _⟩
        · left; simp only [List.foldl_cons]; rw [h, hm]
        · right; simp only [List.foldl_cons]; rw [h, hm]; exact List.mem_cons_self y t
      · right; exact List.mem_cons_of_mem y h

theorem foldl_max_ge_init {α : Type*} [LinearOrder α] (xs : List α) (a : α) :
    a ≤ xs.foldl max a := by
  induction xs generalizing a with
  | nil => simp
  | cons x t ih => exact le_trans (le_max_left a x) (ih (max a x))

theorem foldl_max_ge_mem {α : Type*} [LinearOrder α] (xs : List α) (a : α) :
    ∀ x ∈ xs, x ≤ xs.foldl max a := by
  induction xs generalizing a with
  | nil => intro x hx; cases hx
  | cons y t ih =>
      intro x hx
      rcases List.mem_cons.1 hx with rfl | hx
      · exact le_trans (le_max_right a x) (foldl_max_ge_init t (max a x))
      · exact ih (max a y) x hx

theorem foldl_max_mem {α : Type*} [LinearOrder α] (xs : List α) (a : α) :
    xs.foldl max a = a ∨ xs.foldl max a ∈ xs := by
  induction xs generalizing a with
  | nil => left; rfl
  | cons y t ih =>
      rcases ih (max a y) with h | h
      · rcases max_cases a y with ⟨hm, _⟩ | ⟨hm, _⟩
        · left; simp only [List.foldl_cons]; rw [h, hm]
        · right; simp only [List.foldl_cons]; rw [h, hm]; exact List.mem_cons_self y t
      · right; exact List.mem_cons_of_mem y h

theorem listMin_mem {α : Type*} [LinearOrder α] [Zero α] {v : List α} (h : v ≠ []) :
    listMin v ∈ v := by
  match v with
  | x :: xs =>
      rcases foldl_min_mem xs x with h0 | h0
      · rw [listMin, h0]; exact List.mem_cons_self x xs
      · rw [listMin]; exact List.mem_cons_of_mem x h0

theorem listMin_le {α : Type*} [LinearOrder α] [Zero α] {v : List α} (h : v ≠ []) :
    ∀ x ∈ v, listMin v ≤ x := by
  match v with
  | x :: xs =>
      intro y hy
      rcases List.mem_cons.1 hy with rfl | hy
      · exact foldl_min_le_init xs y
      · exact foldl_min_le_mem xs x y hy

theorem listMax_mem {α : Type*} [LinearOrder α] [Zero α] {v : List α} (h : v ≠ []) :
    listMax v ∈ v := by
  match v with
  | x :: xs =>
      rcases foldl_max_mem xs x with h0 | h0
      · rw [listMax, h0]; exact List.mem_cons_self x xs
      · rw [listMax]; exact List.mem_cons_of_mem x h0

theorem listMax_ge {α : Type*} [LinearOrder α] [Zero α] {v : List α} (h : v ≠ []) :
    ∀ x ∈ v, x ≤ listMax v := by
  match v with
  | x :: xs =>
      intro y hy
      rcases List.mem_cons.1 hy with rfl | hy
      · exact foldl_max_ge_init xs y
      · exact foldl_max_ge_mem xs x y hy

theorem listMin_eq_of {α : Type*} [LinearOrder α] [Zero α] {v : List α} {a : α}
    (h1 : a ∈ v) (h2 : ∀ x ∈ v, a ≤ x) : listMin v = a := by
  have hv : v ≠ [] := by rintro rfl; cases h1
  exact le_antisymm (listMin_le hv a h1) (h2 _ (listMin_mem hv))

theorem listMax_eq_of {α : Type*} [LinearOrder α] [Zero α] {v : List α} {a : α}
    (h1 : a ∈ v) (h2 : ∀ x ∈ v, x ≤ a) : listMax v = a := by
  have hv : v ≠ [] := by rintro rfl; cases h1
  exact le_antisymm (h2 _ (listMax_mem hv)) (listMax_ge hv a h1)

/-! ## Claim C1 -/

/-- C1: the claim states the interpolation used by `align` clamps to the LAST
point's absorption when the query wavelength is beyond the last wavelength.
The code does not: `findIndex` returns `-1` there, which the `idx <= 0` branch
catches first, so the FIRST point's absorption is returned and the intended
`idx >= data.length` clamp branch is dead.  Concretely, on the wavelength-
sorted spectrum `[(100, 1), (200, 2)]` and query `300` (beyond the last
wavelength `200`) the code yields `1`, the first point's absorption, while the
claim requires the last point's absorption `2`.  The other two claimed cases
(at-or-below-first clamp, interior linear interpolation) are also evaluated
here and do hold on this spectrum. -/
theorem C1_interpolate_beyond_last_returns_first :
    interpolate [⟨100, 1⟩, ⟨200, 2⟩] 300 = 1 ∧
    ([⟨100, 1⟩, ⟨200, 2⟩] : List DataPoint).getLastI.absorption = 2 ∧
    interpolate [⟨100, 1⟩, ⟨200, 2⟩] 50 = 1 ∧
    interpolate [⟨100, 1⟩, ⟨200, 2⟩] 150 = 1 + (150 - 100) / (200 - 100) * (2 - 1) := by
  refine ⟨?_, rfl, ?_, ?_⟩ <;> norm_num [interpolate, findIndexJS, List.findIdx?]

/-! ## Claim C4 -/

theorem sum_abs_map_div {α : Type*} [LinearOrderedField α] (v : List α) (S : α)
    (hS : 0 < S) :
    ((v.map (fun x => x / S)).map (fun x => |x|)).sum = (v.map (fun x => |x|)).sum / S := by
  induction v with
  | nil => simp
  | cons a t ih =>
      simp only [List.map_cons, List.sum_cons, abs_div, abs_of_pos hS, add_div, ih]

/-- C4: `normalize(v, area)` divides every element by the L1 norm
`sum(|v|)` whenever that sum is nonzero, and the resulting sequence has L1
norm exactly `1`; when `sum(|v|) = 0` the input is returned unchanged. -/
theorem C4_area_normalization {α : Type*} [LinearOrderedField α] (v : List α) :
    ((v.map (fun x => |x|)).sum ≠ 0 →
      normalizeValues v NormalizationMethod.area
          = v.map (fun x => x / (v.map (fun x => |x|)).sum) ∧
      ((normalizeValues v NormalizationMethod.area).map (fun x => |x|)).sum = 1) ∧
    ((v.map (fun x => |x|)).sum = 0 → normalizeValues v NormalizationMethod.area = v) := by
  constructor
  · intro h
    have hpos : 0 < (v.map (fun x => |x|)).sum := lt_of_le_of_ne (abs_sum_nonneg v) (Ne.symm h)
    refine ⟨normalizeValues_area_of_sum_ne h, ?_⟩
    rw [normalizeValues_area_of_sum_ne h, sum_abs_map_div v _ hpos, div_self h]
  · intro h
    exact normalizeValues_area_of_sum_eq h

/-- Witness for C4 at `v = [1, -3] : List ℚ`: the L1 norm is `4 ≠ 0`, the
output is `v` scaled by `1/4` and its L1 norm is `1`. -/
theorem C4_area_normalization_witness :
    (([1, -3] : List ℚ).map (fun x => |x|)).sum ≠ 0 ∧
    (normalizeValues ([1, -3] : List ℚ) NormalizationMethod.area
        = ([1, -3] : List ℚ).map (fun x => x / (([1, -3] : List ℚ).map (fun x => |x|)).sum) ∧
      ((normalizeValues ([1, -3] : List ℚ) NormalizationMethod.area).map
          (fun x => |x|)).sum = 1) :=
  ⟨by norm_num, (C4_area_normalization ([1, -3] : List ℚ)).1 (by norm_num)⟩

/-! ## Claim C5 -/

/-- C5: on a nonempty sequence, `normalize(v, minmax)` maps each element by
`(x - min) / (max - min)` and the output has minimum `0` and maximum `1` when
the input is non-constant; on a constant input every output element is `0`. -/
theorem C5_minmax_normalization {α : Type*} [LinearOrderedField α] (v : List α)
    (hne : v ≠ []) :
    (listMax v ≠ listMin v →
      normalizeValues v NormalizationMethod.minmax
          = v.map (fun x => (x - listMin v) / (listMax v - listMin v)) ∧
      listMin (normalizeValues v NormalizationMethod.minmax) = 0 ∧
      listMax (normalizeValues v NormalizationMethod.minmax) = 1) ∧
    (listMax v = listMin v →
      normalizeValues v NormalizationMethod.minmax = v.map (fun _ => 0)) := by
  have hlen : v.length ≠ 0 := fun h => hne (List.length_eq_zero.1 h)
  constructor
  · intro hne2
    have hlt : listMin v < listMax v := by
      rcases lt_or_eq_of_le (listMin_le hne _ (listMax_mem hne)) with h | h
      · exact h
      · exact absurd h.symm hne2
    have hrng : listMax v - listMin v ≠ 0 := sub_ne_zero.2 hne2
    have hrngpos : 0 < listMax v - listMin v := sub_pos.2 hlt
    have hform : normalizeValues v NormalizationMethod.minmax
        = v.map (fun x => (x - listMin v) / (listMax v - listMin v)) := by
      unfold normalizeValues
      rw [if_neg, if_neg, if_pos rfl, if_neg hrng]
      · simp
      · simp [hlen]
    refine ⟨hform, ?_, ?_⟩
    · rw [hform]
      have hmem : (0 : α) ∈ v.map (fun x => (x - listMin v) / (listMax v - listMin v)) := by
        refine List.mem_map.2 ⟨listMin v, listMin_mem hne, ?_⟩
        simp
      refine listMin_eq_of hmem ?_
      intro x hx
      rcases List.mem_map.1 hx with ⟨a, ha, rfl⟩
      have := listMin_le hne a ha
      exact div_nonneg (sub_nonneg.2 this) hrngpos.le
    · rw [hform]
      have hmem : (1 : α) ∈ v.map (fun x => (x - listMin v) / (listMax v - listMin v)) := by
        refine List.mem_map.2 ⟨listMax v, listMax_mem hne, ?_⟩
        field_simp
      refine listMax_eq_of hmem ?_
      intro x hx
      rcases List.mem_map.1 hx with ⟨a, ha, rfl⟩
      have hle := listMax_ge hne a ha
      rw [div_le_one hrngpos]
      exact sub_le_sub_right hle _
  · intro heq
    unfold normalizeValues
    rw [if_neg, if_neg, if_pos rfl, if_pos (by rw [heq, sub_self])]
    · simp
    · simp [hlen]

/-- Witness for C5 at `v = [3, 1, 5] : List ℚ`: min `1`, max `5`, output
`[1/2, 0, 1]` with minimum `0` and maximum `1`. -/
theorem C5_minmax_normalization_witness :
    ([3, 1, 5] : List ℚ) ≠ [] ∧
    listMax ([3, 1, 5] : List ℚ) ≠ listMin ([3, 1, 5] : List ℚ) ∧
    (normalizeValues ([3, 1, 5] : List ℚ) NormalizationMethod.minmax
        = ([3, 1, 5] : List ℚ).map (fun x =>
            (x - listMin ([3, 1, 5] : List ℚ))
              / (listMax ([3, 1, 5] : List ℚ) - listMin ([3, 1, 5] : List ℚ))) ∧
      listMin (normalizeValues ([3, 1, 5] : List ℚ) NormalizationMethod.minmax) = 0 ∧
      listMax (normalizeValues ([3, 1, 5] : List ℚ) NormalizationMethod.minmax) = 1) :=
  ⟨by simp, by norm_num [listMin, listMax, min_def, max_def],
   (C5_minmax_normalization ([3, 1, 5] : List ℚ) (by simp)).1
     (by norm_num [listMin, listMax, min_def, max_def])⟩

/-! ## Claim C6 -/

/-- Stated from the claim's words, for comparison with `maAt`: the arithmetic
mean of exactly the existing elements at indices in
`[i - half, i + half]` clipped to the sequence bounds `[0, length - 1]`. -/
def specWindowMean {α : Type*} [LinearOrderedField α] (v : List α) (half : ℤ) (i : ℕ) : α :=
  let idx := Finset.Icc (max 0 ((i : ℤ) - half)) (min ((v.length : ℤ) - 1) ((i : ℤ) + half))
  (∑ j ∈ idx, v.getD j.toNat 0) / (idx.card : α)

theorem maAt_eq_specWindowMean {α : Type*} [LinearOrderedField α] (v : List α)
    (half : ℤ) (i : ℕ) : maAt v half i = specWindowMean v half i := by
  unfold maAt specWindowMean
  have hset : (Finset.Icc ((i : ℤ) - half) ((i : ℤ) + half)).filter
        (fun j => 0 ≤ j ∧ j < (v.length : ℤ))
      = Finset.Icc (max 0 ((i : ℤ) - half)) (min ((v.length : ℤ) - 1) ((i : ℤ) + half)) := by
    ext j
    simp only [Finset.mem_filter, Finset.mem_Icc, le_max_iff, max_le_iff, le_min_iff]
    omega
  rw [hset]

/-- C6: `smooth` preserves length; window `≤ 1` or empty input is the
identity (`smooth(v, 1) = v`, `smooth([], w) = []`); and for window `≥ 2`
element `i` is the arithmetic mean of exactly the existing elements at indices
in `[i - ⌊w/2⌋, i + ⌊w/2⌋]` clipped to the sequence bounds (truncated
boundary handling, no padding, no wrap-around). -/
theorem C6_moving_average {α : Type*} [LinearOrderedField α] (v : List α) (w : ℤ) :
    (applyMovingAverage v w).length = v.length ∧
    (w ≤ 1 → applyMovingAverage v w = v) ∧
    applyMovingAverage v 1 = v ∧
    applyMovingAverage ([] : List α) w = [] ∧
    (2 ≤ w → ∀ i, i < v.length →
      (applyMovingAverage v w).getD i 0 = specWindowMean v (w / 2) i) := by
  refine ⟨?_, ?_, ?_, ?_, ?_⟩
  · unfold applyMovingAverage
    split_ifs <;> simp
  · intro h
    unfold applyMovingAverage
    rw [if_pos (Or.inl h)]
  · unfold applyMovingAverage
    rw [if_pos (Or.inl le_rfl)]
  · unfold applyMovingAverage
    rw [if_pos (Or.inr (by simp))]
  · intro hw i hi
    unfold applyMovingAverage
    rw [if_neg (by push_neg; exact ⟨by omega, by omega⟩)]
    rw [List.getD_eq_getElem _ _ (by simpa using hi)]
    simp only [List.getElem_map, List.getElem_range]
    exact maAt_eq_specWindowMean v (w / 2) i

/-- Witness for C6: identity at window `0` on `[1, 2, 4] : List ℚ`, and at
window `3`, element `0` equals the clipped-window mean `(1 + 2) / 2`. -/
theorem C6_moving_average_witness :
    ((0 : ℤ) ≤ 1 ∧ applyMovingAverage ([1, 2, 4] : List ℚ) 0 = [1, 2, 4]) ∧
    ((2 : ℤ) ≤ 3 ∧ 0 < ([1, 2, 4] : List ℚ).length ∧
      (applyMovingAverage ([1, 2, 4] : List ℚ) 3).getD 0 0
        = specWindowMean ([1, 2, 4] : List ℚ) (3 / 2) 0) :=
  ⟨⟨by norm_num, (C6_moving_average ([1, 2, 4] : List ℚ) 0).2.1 (by norm_num)⟩,
   ⟨by norm_num, by norm_num,
    (C6_moving_average ([1, 2, 4] : List ℚ) 3).2.2.2.2 (by norm_num) 0 (by norm_num)⟩⟩

/-! ## Claim C10 -/

/-- C10: even window sizes `w ≥ 2` are accepted and behave exactly like the
next larger odd window, because only `⌊w/2⌋` enters the computation:
`smooth(v, w) = smooth(v, w + 1)`. -/
theorem C10_even_window_equals_next_odd {α : Type*} [LinearOrderedField α]
    (v : List α) (w : ℤ) (h2 : 2 ≤ w) (hev : w % 2 = 0) :
    applyMovingAverage v w = applyMovingAverage v (w + 1) := by
  have hhalf : w / 2 = (w + 1) / 2 := by omega
  unfold applyMovingAverage
  rw [hhalf]
  rcases eq_or_ne v.length 0 with hl | hl
  · simp [hl]
  · rw [if_neg (by push_neg; exact ⟨by omega, hl⟩), if_neg (by push_neg; exact ⟨by omega, hl⟩)]

/-- Witness for C10 at `v = [1, 2] : List ℚ`, `w = 2`. -/
theorem C10_even_window_equals_next_odd_witness :
    (2 : ℤ) ≤ 2 ∧ (2 : ℤ) % 2 = 0 ∧
    applyMovingAverage ([1, 2] : List ℚ) 2 = applyMovingAverage ([1, 2] : List ℚ) 3 :=
  ⟨le_rfl, by norm_num,
   C10_even_window_equals_next_odd ([1, 2] : List ℚ) 2 le_rfl (by norm_num)⟩

/-! ## Claim C2 -/

/-- C2: the caller's policy `none` is substituted by `area` for both distance
metrics (so the whole matrix built under `none` coincides with the one built
under `area`), and any policy other than `none` is used verbatim. -/
theorem C2_policy_substitution (pairs : List YPair) (m : NormalizationMethod)
    (samples : List WaterSample) (rangeMin rangeMax : ℚ) (sm : Bool) (w : ℤ) :
    calculateRMSE pairs (calcMethod NormalizationMethod.none)
        = calculateRMSE pairs NormalizationMethod.area ∧
    calculateEuclidean pairs (calcMethod NormalizationMethod.none)
        = calculateEuclidean pairs NormalizationMethod.area ∧
    similarityMatrix samples rangeMin rangeMax NormalizationMethod.none sm w
        = similarityMatrix samples rangeMin rangeMax NormalizationMethod.area sm w ∧
    (m ≠ NormalizationMethod.none →
      calculateRMSE pairs (calcMethod m) = calculateRMSE pairs m ∧
      calculateEuclidean pairs (calcMethod m) = calculateEuclidean pairs m) := by
  refine ⟨rfl, rfl, rfl, ?_⟩
  intro hm
  have h : calcMethod m = m := by unfold calcMethod; rw [if_neg hm]
  rw [h]
  exact ⟨rfl, rfl⟩

/-- Witness for C2 at `pairs = [{yA := 1, yB := 2}]` and policy `minmax`. -/
theorem C2_policy_substitution_witness :
    NormalizationMethod.minmax ≠ NormalizationMethod.none ∧
    (calculateRMSE [⟨1, 2⟩] (calcMethod NormalizationMethod.minmax)
        = calculateRMSE [⟨1, 2⟩] NormalizationMethod.minmax ∧
      calculateEuclidean [⟨1, 2⟩] (calcMethod NormalizationMethod.minmax)
        = calculateEuclidean [⟨1, 2⟩] NormalizationMethod.minmax) :=
  ⟨by decide,
   (C2_policy_substitution [⟨1, 2⟩] NormalizationMethod.minmax [] 0 0 false 0).2.2.2
     (by decide)⟩

/-! ## Claim C7 -/

theorem getLastI_cons_of_ne_nil {α : Type*} [Inhabited α] (a : α) {l : List α}
    (h : l ≠ []) : (a :: l).getLastI = l.getLastI := by
  match l with
  | b :: t =>
      rw [List.getLastI_eq_getLast?, List.getLastI_eq_getLast?, List.getLast?_cons_cons]

theorem getLastI_mem {α : Type*} [Inhabited α] {l : List α} (h : l ≠ []) :
    l.getLastI ∈ l := by
  rw [List.getLastI_eq_getLast?, List.getLast?_eq_getLast_of_ne_nil h]
  exact List.getLast_mem h

theorem sorted_le_getLastI {α : Type*} [LinearOrder α] [Inhabited α] :
    ∀ {l : List α}, List.Sorted (· ≤ ·) l → ∀ y ∈ l, y ≤ l.getLastI := by
  intro l
  induction l with
  | nil => intro _ y hy; cases hy
  | cons x xs ih =>
      intro hs y hy
      rcases eq_or_ne xs [] with rfl | hne
      · rcases List.mem_singleton.1 hy with rfl
        rfl
      · rw [getLastI_cons_of_ne_nil x hne]
        rcases List.mem_cons.1 hy with rfl | hy
        · exact le_trans (List.rel_of_sorted_cons hs _ (getLastI_mem hne))
            le_rfl
        · exact ih hs.of_cons y hy

/-- For a nonempty sorted list, `listMin` is the head and `listMax` the last
element. -/
theorem sorted_listMin_eq_headI {α : Type*} [LinearOrder α] [Zero α] [Inhabited α]
    {l : List α} (hs : List.Sorted (· ≤ ·) l) (hne : l ≠ []) : listMin l = l.headI := by
  match l with
  | x :: xs =>
      refine listMin_eq_of (List.mem_cons_self x xs) ?_
      intro y hy
      rcases List.mem_cons.1 hy with rfl | hy
      · exact le_rfl
      · exact List.rel_of_sorted_cons hs y hy

theorem sorted_listMax_eq_getLastI {α : Type*} [LinearOrder α] [Zero α] [Inhabited α]
    {l : List α} (hs : List.Sorted (· ≤ ·) l) (hne : l ≠ []) : listMax l = l.getLastI :=
  listMax_eq_of (getLastI_mem hne) (sorted_le_getLastI hs)

theorem headI_map_wavelength {data : List DataPoint} (h : data ≠ []) :
    (data.map (fun p => p.wavelength)).headI = (data.headI).wavelength := by
  match data with
  | x :: xs => rfl

theorem getLastI_map_wavelength {data : List DataPoint} (h : data ≠ []) :
    (data.map (fun p => p.wavelength)).getLastI = (data.getLastI).wavelength := by
  induction data with
  | nil => cases h rfl
  | cons x xs ih =>
      rcases eq_or_ne xs [] with rfl | hne
      · rfl
      · rw [List.map_cons, getLastI_cons_of_ne_nil x hne,
          getLastI_cons_of_ne_nil _ (by simpa using hne), ih hne]

/-- C7: (a) for nonempty wavelength-sorted spectra whose domains do not
overlap — the larger of the two minimum wavelengths exceeds the smaller of
the two maximum wavelengths — `align` returns the empty sequence (a valid
result, not an error); (b) in the report assembler, a pair for which zero
aligned points survive the active wavelength-range filter contributes no
`SimilarityResult` entry at all. -/
theorem C7_non_overlap_and_skip :
    (∀ dataA dataB : List DataPoint, dataA ≠ [] → dataB ≠ [] →
      List.Sorted (· ≤ ·) (dataA.map (fun p => p.wavelength)) →
      List.Sorted (· ≤ ·) (dataB.map (fun p => p.wavelength)) →
      min (listMax (dataA.map (fun p => p.wavelength)))
          (listMax (dataB.map (fun p => p.wavelength)))
        < max (listMin (dataA.map (fun p => p.wavelength)))
            (listMin (dataB.map (fun p => p.wavelength))) →
      getOverlapData dataA dataB = []) ∧
    (∀ (sA sB : WaterSample) (rangeMin rangeMax : ℚ) (m : NormalizationMethod)
        (sm : Bool) (w : ℤ),
      ((getOverlapData sA.data sB.data).filter
          (fun p => rangeMin ≤ p.x ∧ p.x ≤ min rangeMax MAX_ALLOWED_WAVELENGTH)).length = 0 →
      pairEntry sA sB rangeMin rangeMax m sm w = []) := by
  constructor
  · intro dataA dataB hA hB hsA hsB hlt
    have hminA := sorted_listMin_eq_headI hsA (by simpa using hA)
    have hminB := sorted_listMin_eq_headI hsB (by simpa using hB)
    have hmaxA := sorted_listMax_eq_getLastI hsA (by simpa using hA)
    have hmaxB := sorted_listMax_eq_getLastI hsB (by simpa using hB)
    rw [hminA, hminB, headI_map_wavelength hA, headI_map_wavelength hB] at hlt
    rw [hmaxA, hmaxB, getLastI_map_wavelength hA, getLastI_map_wavelength hB] at hlt
    unfold getOverlapData
    rw [if_neg (by simp [hA, hB])]
    have hcount : gridCount
        (max (dataA.headI).wavelength (dataB.headI).wavelength)
        (min (dataA.getLastI).wavelength (dataB.getLastI).wavelength) = 0 := by
      unfold gridCount
      rw [if_neg (not_le.2 hlt)]
    dsimp only
    rw [hcount]
    rfl
  · intro sA sB rangeMin rangeMax m sm w hzero
    unfold pairEntry
    rw [if_neg (by omega)]

/-- Witness for C7: `A` spans `[200, 210]`, `B` spans `[250, 260]` — no
overlap, `align` is empty, and the pair yields no `SimilarityResult`. -/
theorem C7_non_overlap_and_skip_witness :
    (([⟨200, 1⟩, ⟨210, 2⟩] : List DataPoint) ≠ [] ∧
      ([⟨250, 3⟩, ⟨260, 4⟩] : List DataPoint) ≠ [] ∧
      List.Sorted (· ≤ ·) (([⟨200, 1⟩, ⟨210, 2⟩] : List DataPoint).map
        (fun p => p.wavelength)) ∧
      List.Sorted (· ≤ ·) (([⟨250, 3⟩, ⟨260, 4⟩] : List DataPoint).map
        (fun p => p.wavelength)) ∧
      min (listMax (([⟨200, 1⟩, ⟨210, 2⟩] : List DataPoint).map (fun p => p.wavelength)))
          (listMax (([⟨250, 3⟩, ⟨260, 4⟩] : List DataPoint).map (fun p => p.wavelength)))
        < max (listMin (([⟨200, 1⟩, ⟨210, 2⟩] : List DataPoint).map (fun p => p.wavelength)))
            (listMin (([⟨250, 3⟩, ⟨260, 4⟩] : List DataPoint).map (fun p => p.wavelength))) ∧
      getOverlapData [⟨200, 1⟩, ⟨210, 2⟩] [⟨250, 3⟩, ⟨260, 4⟩] = []) ∧
    (((getOverlapData (WaterSample.mk "a" "A" [⟨200, 1⟩, ⟨210, 2⟩]).data
          (WaterSample.mk "b" "B" [⟨250, 3⟩, ⟨260, 4⟩]).data).filter
        (fun p => 0 ≤ p.x ∧ p.x ≤ min 300 MAX_ALLOWED_WAVELENGTH)).length = 0 ∧
      pairEntry (WaterSample.mk "a" "A" [⟨200, 1⟩, ⟨210, 2⟩])
        (WaterSample.mk "b" "B" [⟨250, 3⟩, ⟨260, 4⟩]) 0 300 NormalizationMethod.none
        false 5 = []) := by
  have hA : ([⟨200, 1⟩, ⟨210, 2⟩] : List DataPoint) ≠ [] := by simp
  have hB : ([⟨250, 3⟩, ⟨260, 4⟩] : List DataPoint) ≠ [] := by simp
  have hsA : List.Sorted (· ≤ ·) (([⟨200, 1⟩, ⟨210, 2⟩] : List DataPoint).map
      (fun p => p.wavelength)) := by
    simp [List.sorted_cons]
    norm_num
  have hsB : List.Sorted (· ≤ ·) (([⟨250, 3⟩, ⟨260, 4⟩] : List DataPoint).map
      (fun p => p.wavelength)) := by
    simp [List.sorted_cons]
    norm_num
  have hlt : min (listMax (([⟨200, 1⟩, ⟨210, 2⟩] : List DataPoint).map
        (fun p => p.wavelength)))
      (listMax (([⟨250, 3⟩, ⟨260, 4⟩] : List DataPoint).map (fun p => p.wavelength)))
      < max (listMin (([⟨200, 1⟩, ⟨210, 2⟩] : List DataPoint).map (fun p => p.wavelength)))
        (listMin (([⟨250, 3⟩, ⟨260, 4⟩] : List DataPoint).map (fun p => p.wavelength))) := by
    norm_num [listMin, listMax, min_def, max_def]
  have hempty : getOverlapData [⟨200, 1⟩, ⟨210, 2⟩] [⟨250, 3⟩, ⟨260, 4⟩] = [] :=
    C7_non_overlap_and_skip.1 _ _ hA hB hsA hsB hlt
  have hzero : ((getOverlapData (WaterSample.mk "a" "A" [⟨200, 1⟩, ⟨210, 2⟩]).data
        (WaterSample.mk "b" "B" [⟨250, 3⟩, ⟨260, 4⟩]).data).filter
      (fun p => 0 ≤ p.x ∧ p.x ≤ min 300 MAX_ALLOWED_WAVELENGTH)).length = 0 := by
    show ((getOverlapData [⟨200, 1⟩, ⟨210, 2⟩] [⟨250, 3⟩, ⟨260, 4⟩]).filter
        (fun p => 0 ≤ p.x ∧ p.x ≤ min 300 MAX_ALLOWED_WAVELENGTH)).length = 0
    rw [hempty]
    rfl
  exact ⟨⟨hA, hB, hsA, hsB, hlt, hempty⟩,
    ⟨hzero, C7_non_overlap_and_skip.2 _ _ 0 300 NormalizationMethod.none false 5 hzero⟩⟩

/-! ## Claim C8 -/

theorem sum_sq_shift (l : List ℝ) (c : ℝ) :
    (l.map (fun x => (x - c) ^ 2)).sum
      = (l.map (fun x => x * x)).sum - 2 * c * l.sum + (l.length : ℝ) * c ^ 2 := by
  induction l with
  | nil => simp
  | cons a t ih =>
      simp only [List.map_cons, List.sum_cons, List.length_cons, ih]
      push_cast
      ring

/-- A list-level Cauchy–Schwarz consequence: `(Σx)² ≤ n · Σx²`.  This is what
makes both factors of the Pearson denominator nonnegative. -/
theorem list_sq_sum_le_len_mul_sum_sq (l : List ℝ) :
    l.sum ^ 2 ≤ (l.length : ℝ) * (l.map (fun x => x * x)).sum := by
  rcases eq_or_ne l [] with rfl | hne
  · simp
  · have hn : 0 < (l.length : ℝ) := by
      have := List.length_pos_iff_ne_nil.2 hne
      exact_mod_cast this
    have h0 : 0 ≤ (l.map (fun x => (x - l.sum / (l.length : ℝ)) ^ 2)).sum :=
      List.sum_nonneg (fun x hx => by
        rcases List.mem_map.1 hx with ⟨a, _, rfl⟩
        positivity)
    rw [sum_sq_shift] at h0
    have hs : l.sum = (l.length : ℝ) * (l.sum / (l.length : ℝ)) := by
      field_simp
    nlinarith [h0, hn, mul_le_mul_of_nonneg_left h0 hn.le]

theorem zip_self_map_sum_zero (l : List ℝ) (g : ℝ × ℝ → ℝ) (hg : ∀ a, g (a, a) = 0) :
    ((l.zip l).map g).sum = 0 := by
  induction l with
  | nil => simp
  | cons a t ih => simp [ih, hg]

theorem map_mul_comm_yBA (common : List YPair) :
    common.map (fun p => p.yB * p.yA) = common.map (fun p => p.yA * p.yB) :=
  List.map_congr_left (fun p _ => mul_comm p.yB p.yA)

theorem sum_mul_self_nonneg (common : List YPair) :
    0 ≤ (common.map (fun p => p.yA * p.yA)).sum :=
  List.sum_nonneg (fun x hx => by
    rcases List.mem_map.1 hx with ⟨p, _, rfl⟩
    exact mul_self_nonneg _)

/-- C8: on a self-pair sequence (`yA = yB` pointwise) Pearson is `1` (given
at least two points and nonzero variance), cosine is `1` (given nonzero
magnitude), Euclidean and RMSE are `0` under every policy, and SID is `0`;
and swapping the two series leaves Pearson and cosine unchanged. -/
theorem C8_self_similarity_and_symmetry :
    (∀ common : List YPair, (∀ p ∈ common, p.yA = p.yB) →
      ((2 ≤ common.length →
          (common.length : ℝ) * (common.map (fun p => p.yA * p.yA)).sum
              - (common.map (fun p => p.yA)).sum * (common.map (fun p => p.yA)).sum ≠ 0 →
          calculatePearson common = 1) ∧
        ((common.map (fun p => p.yA * p.yA)).sum ≠ 0 →
          calculateCosineSimilarity common = 1) ∧
        (∀ m, calculateEuclidean common m = 0 ∧ calculateRMSE common m = 0) ∧
        calculateSID common = 0)) ∧
    (∀ common : List YPair,
      calculatePearson (common.map (fun p => YPair.mk p.yB p.yA))
          = calculatePearson common ∧
      calculateCosineSimilarity (common.map (fun p => YPair.mk p.yB p.yA))
          = calculateCosineSimilarity common) := by
  constructor
  · intro common hAB
    have hmapB : common.map (fun p => p.yB) = common.map (fun p => p.yA) :=
      List.map_congr_left (fun p hp => (hAB p hp).symm)
    have hmapBB : common.map (fun p => p.yB * p.yB) = common.map (fun p => p.yA * p.yA) :=
      List.map_congr_left (fun p hp => by rw [hAB p hp])
    have hmapAB : common.map (fun p => p.yA * p.yB) = common.map (fun p => p.yA * p.yA) :=
      List.map_congr_left (fun p hp => by rw [hAB p hp])
    refine ⟨?_, ?_, ?_, ?_⟩
    · intro h2 hvar
      unfold calculatePearson
      rw [if_neg (by omega)]
      dsimp only
      rw [hmapB, hmapBB, hmapAB]
      set n := (common.length : ℝ) with hn
      set SA := (common.map (fun p => p.yA)).sum with hSA
      set SA2 := (common.map (fun p => p.yA * p.yA)).sum with hSA2
      have hDD : (n * SA2 - SA * SA) * (n * SA2 - SA * SA) = (n * SA2 - SA * SA) ^ 2 := by
        ring
      rw [hDD, Real.sqrt_sq_eq_abs]
      have hDnn : 0 ≤ n * SA2 - SA * SA := by
        have := list_sq_sum_le_len_mul_sum_sq (common.map (fun p => p.yA))
        rw [List.map_map, List.length_map] at this
        have hcomp : common.map ((fun x => x * x) ∘ fun p => p.yA)
            = common.map (fun p => p.yA * p.yA) := rfl
        rw [hcomp] at this
        nlinarith [this]
      rw [abs_of_nonneg hDnn]
      rw [if_neg hvar]
      exact div_self hvar
    · intro hmag
      unfold calculateCosineSimilarity
      dsimp only
      rw [hmapBB, hmapAB]
      have hnn : 0 ≤ (common.map (fun p => p.yA * p.yA)).sum := sum_mul_self_nonneg common
      have hsqrt : Real.sqrt ((common.map (fun p => p.yA * p.yA)).sum) ≠ 0 := by
        rw [Ne, Real.sqrt_eq_zero']
        push_neg
        exact lt_of_le_of_ne hnn (Ne.symm hmag)
      rw [if_neg (by push_neg; exact ⟨hsqrt, hsqrt⟩)]
      rw [Real.mul_self_sqrt hnn]
      exact div_self hmag
    · intro m
      have hnorm : normalizeValues (common.map (fun p => p.yB)) m
          = normalizeValues (common.map (fun p => p.yA)) m := by rw [hmapB]
      constructor
      · unfold calculateEuclidean
        rcases eq_or_ne common.length 0 with hl | hl
        · rw [if_pos hl]
        · rw [if_neg hl]
          dsimp only
          rw [hnorm, zip_self_map_sum_zero _ _ (fun a => by ring), Real.sqrt_zero]
      · unfold calculateRMSE
        rcases eq_or_ne common.length 0 with hl | hl
        · rw [if_pos hl]
        · rw [if_neg hl]
          dsimp only
          rw [hnorm, zip_self_map_sum_zero _ _ (fun a => by ring), zero_div,
            Real.sqrt_zero]
    · unfold calculateSID
      dsimp only
      have hfloor : common.map (fun cp => max (1e-10 : ℝ) cp.yB)
          = common.map (fun cp => max (1e-10 : ℝ) cp.yA) :=
        List.map_congr_left (fun p hp => by rw [hAB p hp])
      rw [hfloor, zip_self_map_sum_zero _ _ (fun a => by ring)]
  · intro common
    have c1 : common.map ((fun p => p.yA) ∘ fun p => YPair.mk p.yB p.yA)
        = common.map (fun p => p.yB) := rfl
    have c2 : common.map ((fun p => p.yB) ∘ fun p => YPair.mk p.yB p.yA)
        = common.map (fun p => p.yA) := rfl
    have c3 : common.map ((fun p => p.yA * p.yA) ∘ fun p => YPair.mk p.yB p.yA)
        = common.map (fun p => p.yB * p.yB) := rfl
    have c4 : common.map ((fun p => p.yB * p.yB) ∘ fun p => YPair.mk p.yB p.yA)
        = common.map (fun p => p.yA * p.yA) := rfl
    have c5 : common.map ((fun p => p.yA * p.yB) ∘ fun p => YPair.mk p.yB p.yA)
        = common.map (fun p => p.yB * p.yA) := rfl
    constructor
    · unfold calculatePearson
      simp only [List.length_map, List.map_map]
      rw [c1, c2, c3, c4, c5, map_mul_comm_yBA]
      set n := (common.length : ℝ) with hn
      set SA := (common.map (fun p => p.yA)).sum with hSA
      set SB := (common.map (fun p => p.yB)).sum with hSB
      set SA2 := (common.map (fun p => p.yA * p.yA)).sum with hSA2
      set SB2 := (common.map (fun p => p.yB * p.yB)).sum with hSB2
      set SP := (common.map (fun p => p.yA * p.yB)).sum with hSP
      rw [show n * SP - SB * SA = n * SP - SA * SB from by ring,
        show (n * SB2 - SB * SB) * (n * SA2 - SA * SA)
            = (n * SA2 - SA * SA) * (n * SB2 - SB * SB) from mul_comm _ _]
    · unfold calculateCosineSimilarity
      simp only [List.map_map]
      rw [c3, c4, c5, map_mul_comm_yBA]
      set SP := (common.map (fun p => p.yA * p.yB)).sum with hSP
      set MA := Real.sqrt ((common.map (fun p => p.yA * p.yA)).sum) with hMA
      set MB := Real.sqrt ((common.map (fun p => p.yB * p.yB)).sum) with hMB
      exact if_congr or_comm rfl (by rw [mul_comm])

/-- Witness for C8 at `common = [{1,1}, {2,2}]`: two points, variance
`2·5 - 3·3 = 1 ≠ 0`, magnitude `5 ≠ 0`; Pearson and cosine are `1`,
Euclidean, RMSE (area policy) and SID are `0`. -/
theorem C8_self_similarity_and_symmetry_witness :
    (∀ p ∈ ([⟨1, 1⟩, ⟨2, 2⟩] : List YPair), p.yA = p.yB) ∧
    2 ≤ ([⟨1, 1⟩, ⟨2, 2⟩] : List YPair).length ∧
    ((([⟨1, 1⟩, ⟨2, 2⟩] : List YPair).length : ℝ)
        * (([⟨1, 1⟩, ⟨2, 2⟩] : List YPair).map (fun p => p.yA * p.yA)).sum
      - (([⟨1, 1⟩, ⟨2, 2⟩] : List YPair).map (fun p => p.yA)).sum
        * (([⟨1, 1⟩, ⟨2, 2⟩] : List YPair).map (fun p => p.yA)).sum) ≠ 0 ∧
    calculatePearson [⟨1, 1⟩, ⟨2, 2⟩] = 1 ∧
    (([⟨1, 1⟩, ⟨2, 2⟩] : List YPair).map (fun p => p.yA * p.yA)).sum ≠ 0 ∧
    calculateCosineSimilarity [⟨1, 1⟩, ⟨2, 2⟩] = 1 ∧
    calculateEuclidean [⟨1, 1⟩, ⟨2, 2⟩] NormalizationMethod.area = 0 ∧
    calculateRMSE [⟨1, 1⟩, ⟨2, 2⟩] NormalizationMethod.area = 0 ∧
    calculateSID [⟨1, 1⟩, ⟨2, 2⟩] = 0 := by
  have hAB : ∀ p ∈ ([⟨1, 1⟩, ⟨2, 2⟩] : List YPair), p.yA = p.yB := by
    intro p hp
    rcases List.mem_cons.1 hp with rfl | hp
    · rfl
    · rcases List.mem_cons.1 hp with rfl | hp
      · rfl
      · cases hp
  have h2 : 2 ≤ ([⟨1, 1⟩, ⟨2, 2⟩] : List YPair).length := by norm_num
  have hvar : ((([⟨1, 1⟩, ⟨2, 2⟩] : List YPair).length : ℝ)
      * (([⟨1, 1⟩, ⟨2, 2⟩] : List YPair).map (fun p => p.yA * p.yA)).sum
    - (([⟨1, 1⟩, ⟨2, 2⟩] : List YPair).map (fun p => p.yA)).sum
      * (([⟨1, 1⟩, ⟨2, 2⟩] : List YPair).map (fun p => p.yA)).sum) ≠ 0 := by
    norm_num
  have hmag : (([⟨1, 1⟩, ⟨2, 2⟩] : List YPair).map (fun p => p.yA * p.yA)).sum ≠ 0 := by
    norm_num
  obtain ⟨hp, hc, hd, hs⟩ := (C8_self_similarity_and_symmetry.1 _ hAB)
  exact ⟨hAB, h2, hvar, hp h2 hvar, hmag, hc hmag, (hd NormalizationMethod.area).1,
    (hd NormalizationMethod.area).2, hs⟩

/-! ## Claim C9 -/

theorem sub_mul_log_sub_nonneg {x y : ℝ} (hx : 0 < x) (hy : 0 < y) :
    0 ≤ (x - y) * (Real.log x - Real.log y) := by
  rcases le_total y x with h | h
  · exact mul_nonneg (sub_nonneg.2 h) (sub_nonneg.2 ((Real.log_le_log_iff hy hx).2 h))
  · have h1 : x - y ≤ 0 := sub_nonpos.2 h
    have h2 : Real.log x - Real.log y ≤ 0 :=
      sub_nonpos.2 ((Real.log_le_log_iff hx hy).2 h)
    nlinarith [h1, h2]

/-- Each summand of SID over two positive scaled series is nonnegative, by
monotonicity of `log`. -/
theorem zip_map_div_sid_nonneg :
    ∀ (a b : List ℝ) (Sa Sb : ℝ), (∀ x ∈ a, 0 < x) → (∀ x ∈ b, 0 < x) →
      0 < Sa → 0 < Sb →
      0 ≤ (((a.map (fun x => x / Sa)).zip (b.map (fun x => x / Sb))).map
          (fun pr => (pr.1 - pr.2) * (Real.log pr.1 - Real.log pr.2))).sum := by
  intro a
  induction a with
  | nil => intro b Sa Sb _ _ _ _; simp
  | cons x xs ih =>
      intro b Sa Sb hpa hpb hSa hSb
      match b with
      | [] => simp
      | y :: ys =>
          simp only [List.map_cons, List.zip_cons_cons, List.sum_cons]
          refine add_nonneg ?_ (ih ys Sa Sb (fun z hz => hpa z (List.mem_cons_of_mem x hz))
            (fun z hz => hpb z (List.mem_cons_of_mem y hz)) hSa hSb)
          exact sub_mul_log_sub_nonneg
            (div_pos (hpa x (List.mem_cons_self x xs)) hSa)
            (div_pos (hpb y (List.mem_cons_self y ys)) hSb)

/-- C9: SID is nonnegative on every aligned pair sequence: after flooring at
`1e-10` and area-normalizing, both series are strictly positive, and each
summand `(p - q)(ln p - ln q)` is nonnegative by monotonicity of `log`. -/
theorem C9_sid_nonneg (common : List YPair) : 0 ≤ calculateSID common := by
  unfold calculateSID
  dsimp only
  rcases eq_or_ne common [] with rfl | hne
  · simp [normalizeValues]
  · have heps : (0 : ℝ) < 1e-10 := by norm_num
    have hposA : ∀ x ∈ common.map (fun cp => max (1e-10 : ℝ) cp.yA), 0 < x := by
      intro x hx
      rcases List.mem_map.1 hx with ⟨c, _, rfl⟩
      exact lt_of_lt_of_le heps (le_max_left _ _)
    have hposB : ∀ x ∈ common.map (fun cp => max (1e-10 : ℝ) cp.yB), 0 < x := by
      intro x hx
      rcases List.mem_map.1 hx with ⟨c, _, rfl⟩
      exact lt_of_lt_of_le heps (le_max_left _ _)
    have hneA : common.map (fun cp => max (1e-10 : ℝ) cp.yA) ≠ [] := by
      simpa using hne
    have hneB : common.map (fun cp => max (1e-10 : ℝ) cp.yB) ≠ [] := by
      simpa using hne
    have habsA : (common.map (fun cp => max (1e-10 : ℝ) cp.yA)).map (fun x => |x|)
        = common.map (fun cp => max (1e-10 : ℝ) cp.yA) :=
      calc (common.map (fun cp => max (1e-10 : ℝ) cp.yA)).map (fun x => |x|)
          = (common.map (fun cp => max (1e-10 : ℝ) cp.yA)).map (fun x => x) :=
            List.map_congr_left (fun x hx => abs_of_pos (hposA x hx))
        _ = common.map (fun cp => max (1e-10 : ℝ) cp.yA) := by simp
    have habsB : (common.map (fun cp => max (1e-10 : ℝ) cp.yB)).map (fun x => |x|)
        = common.map (fun cp => max (1e-10 : ℝ) cp.yB) :=
      calc (common.map (fun cp => max (1e-10 : ℝ) cp.yB)).map (fun x => |x|)
          = (common.map (fun cp => max (1e-10 : ℝ) cp.yB)).map (fun x => x) :=
            List.map_congr_left (fun x hx => abs_of_pos (hposB x hx))
        _ = common.map (fun cp => max (1e-10 : ℝ) cp.yB) := by simp
    have hSA : 0 < ((common.map (fun cp => max (1e-10 : ℝ) cp.yA)).map
        (fun x => |x|)).sum := by
      rw [habsA]
      exact List.sum_pos _ hposA hneA
    have hSB : 0 < ((common.map (fun cp => max (1e-10 : ℝ) cp.yB)).map
        (fun x => |x|)).sum := by
      rw [habsB]
      exact List.sum_pos _ hposB hneB
    rw [normalizeValues_area_of_sum_ne hSA.ne.symm, normalizeValues_area_of_sum_ne hSB.ne.symm]
    exact zip_map_div_sid_nonneg _ _ _ _ hposA hposB hSA hSB

/-! ## Claim C3: checked evaluation

Every operation that can produce a non-finite IEEE value in JavaScript —
division (`±Infinity`/`NaN` at a zero divisor), `Math.sqrt` (`NaN` below `0`)
and `Math.log` (`-Infinity` at `0`, `NaN` below) — is replaced by a checked
variant returning `Option.none` outside its safe domain.  The checked metric
functions reproduce the source's own guards verbatim; proving that each one
always returns `Option.some` of the unchecked value shows that every
division-by-zero / out-of-domain path is unreachable, i.e. the metrics and
the normalizer only ever produce finite real values. -/

noncomputable def divOpt (a b : ℝ) : Option ℝ :=
  if b = 0 then Option.none else Option.some (a / b)

noncomputable def sqrtOpt (x : ℝ) : Option ℝ :=
  if 0 ≤ x then Option.some (Real.sqrt x) else Option.none

noncomputable def logOpt (x : ℝ) : Option ℝ :=
  if 0 < x then Option.some (Real.log x) else Option.none

/-- Traverse a list with a fallible function, failing if any element fails. -/
def mapOpt {α β : Type*} (f : α → Option β) : List α → Option (List β)
  | [] => Option.some []
  | a :: t => (f a).bind (fun b => (mapOpt f t).map (fun bs => b :: bs))

/-- `normalizeValues` with checked divisions. -/
noncomputable def normalizeValuesChecked (values : List ℝ) (method : NormalizationMethod) :
    Option (List ℝ) :=
  if method = NormalizationMethod.none ∨ values.length = 0 then Option.some values
  else if method = NormalizationMethod.area then
    let s := (values.map (fun b => |b|)).sum
    if s = 0 then Option.some values else mapOpt (fun v => divOpt v s) values
  else if method = NormalizationMethod.minmax then
    let mn := listMin values
    let mx := listMax values
    let rng := mx - mn
    if rng = 0 then Option.some (values.map (fun _ => 0))
    else mapOpt (fun v => divOpt (v - mn) rng) values
  else Option.some values

/-- `calculatePearson` with checked square root and divisions. -/
noncomputable def calculatePearsonChecked (common : List YPair) : Option ℝ :=
  let n : ℝ := (common.length : ℝ)
  if common.length < 2 then Option.some 0
  else
    let sumA := (common.map (fun p => p.yA)).sum
    let sumB := (common.map (fun p => p.yB)).sum
    let sumASq := (common.map (fun p => p.yA * p.yA)).sum
    let sumBSq := (common.map (fun p => p.yB * p.yB)).sum
    let sumProd := (common.map (fun p => p.yA * p.yB)).sum
    let num := n * sumProd - sumA * sumB
    (sqrtOpt ((n * sumASq - sumA * sumA) * (n * sumBSq - sumB * sumB))).bind
      (fun den => if den = 0 then Option.some 0 else divOpt num den)

/-- `calculateRMSE` with checked operations. -/
noncomputable def calculateRMSEChecked (common : List YPair)
    (method : NormalizationMethod) : Option ℝ :=
  if common.length = 0 then Option.some 0
  else
    (normalizeValuesChecked (common.map (fun p => p.yA)) method).bind (fun normA =>
      (normalizeValuesChecked (common.map (fun p => p.yB)) method).bind (fun normB =>
        let sumSq := ((normA.zip normB).map (fun q => (q.1 - q.2) ^ 2)).sum
        (divOpt sumSq ((common.length : ℕ) : ℝ)).bind sqrtOpt))

/-- `calculateEuclidean` with checked operations. -/
noncomputable def calculateEuclideanChecked (common : List YPair)
    (method : NormalizationMethod) : Option ℝ :=
  if common.length = 0 then Option.some 0
  else
    (normalizeValuesChecked (common.map (fun p => p.yA)) method).bind (fun normA =>
      (normalizeValuesChecked (common.map (fun p => p.yB)) method).bind (fun normB =>
        sqrtOpt (((normA.zip normB).map (fun q => (q.1 - q.2) ^ 2)).sum)))

/-- `calculateCosineSimilarity` with checked operations. -/
noncomputable def calculateCosineSimilarityChecked (common : List YPair) : Option ℝ :=
  let dotProduct := (common.map (fun p => p.yA * p.yB)).sum
  (sqrtOpt ((common.map (fun p => p.yA * p.yA)).sum)).bind (fun magA =>
    (sqrtOpt ((common.map (fun p => p.yB * p.yB)).sum)).bind (fun magB =>
      if magA = 0 ∨ magB = 0 then Option.some 0 else divOpt dotProduct (magA * magB)))

/-- `calculateSID` with checked operations. -/
noncomputable def calculateSIDChecked (common : List YPair) : Option ℝ :=
  (normalizeValuesChecked (common.map (fun cp => max (1e-10 : ℝ) cp.yA))
      NormalizationMethod.area).bind (fun p =>
    (normalizeValuesChecked (common.map (fun cp => max (1e-10 : ℝ) cp.yB))
        NormalizationMethod.area).bind (fun q =>
      (mapOpt (fun pr => (logOpt pr.1).bind (fun lp => (logOpt pr.2).bind (fun lq =>
          Option.some ((pr.1 - pr.2) * (lp - lq))))) (p.zip q)).map List.sum))

theorem mapOpt_divOpt (l : List ℝ) (f : ℝ → ℝ) (b : ℝ) (hb : b ≠ 0) :
    mapOpt (fun v => divOpt (f v) b) l = Option.some (l.map (fun v => f v / b)) := by
  induction l with
  | nil => rfl
  | cons a t ih =>
      simp only [mapOpt, ih]
      simp [divOpt, hb]

theorem normalizeValuesChecked_eq (v : List ℝ) (m : NormalizationMethod) :
    normalizeValuesChecked v m = Option.some (normalizeValues v m) := by
  unfold normalizeValuesChecked normalizeValues
  split_ifs with h1 h2 h3
  · rfl
  · dsimp only
    split_ifs with hs
    · rfl
    · exact mapOpt_divOpt v (fun x => x) _ hs
  · dsimp only
    split_ifs with hr
    · rfl
    · exact mapOpt_divOpt v (fun x => x - listMin v) _ hr
  · rfl

theorem sum_sq_map_nonneg (l1 l2 : List ℝ) :
    0 ≤ ((l1.zip l2).map (fun q => (q.1 - q.2) ^ 2)).sum :=
  List.sum_nonneg (fun x hx => by
    rcases List.mem_map.1 hx with ⟨q, _, rfl⟩
    positivity)

theorem sum_mul_self_nonneg_f (common : List YPair) (f : YPair → ℝ) :
    0 ≤ (common.map (fun p => f p * f p)).sum :=
  List.sum_nonneg (fun x hx => by
    rcases List.mem_map.1 hx with ⟨p, _, rfl⟩
    exact mul_self_nonneg _)

/-- Both factors of the Pearson denominator are nonnegative. -/
theorem pearson_factor_nonneg (common : List YPair) (f : YPair → ℝ) :
    0 ≤ (common.length : ℝ) * (common.map (fun p => f p * f p)).sum
        - (common.map f).sum * (common.map f).sum := by
  have h := list_sq_sum_le_len_mul_sum_sq (common.map f)
  rw [List.map_map, List.length_map] at h
  have hcomp : common.map ((fun x => x * x) ∘ f) = common.map (fun p => f p * f p) := rfl
  rw [hcomp] at h
  nlinarith [h]

theorem calculatePearsonChecked_eq (common : List YPair) :
    calculatePearsonChecked common = Option.some (calculatePearson common) := by
  unfold calculatePearsonChecked calculatePearson
  dsimp only
  have hD : 0 ≤ ((common.length : ℝ) * (common.map (fun p => p.yA * p.yA)).sum
        - (common.map (fun p => p.yA)).sum * (common.map (fun p => p.yA)).sum)
      * ((common.length : ℝ) * (common.map (fun p => p.yB * p.yB)).sum
        - (common.map (fun p => p.yB)).sum * (common.map (fun p => p.yB)).sum) :=
    mul_nonneg (pearson_factor_nonneg common (fun p => p.yA))
      (pearson_factor_nonneg common (fun p => p.yB))
  simp only [sqrtOpt, divOpt, if_pos hD, Option.some_bind]
  split_ifs with h hden <;> rfl

theorem calculateRMSEChecked_eq (common : List YPair) (m : NormalizationMethod) :
    calculateRMSEChecked common m = Option.some (calculateRMSE common m) := by
  unfold calculateRMSEChecked calculateRMSE
  split_ifs with h
  · rfl
  · rw [normalizeValuesChecked_eq, Option.some_bind, normalizeValuesChecked_eq,
      Option.some_bind]
    dsimp only
    have hn : ((common.length : ℕ) : ℝ) ≠ 0 := Nat.cast_ne_zero.2 h
    have hq : (0 : ℝ) ≤ (((normalizeValues (common.map (fun p => p.yA)) m).zip
          (normalizeValues (common.map (fun p => p.yB)) m)).map
        (fun q => (q.1 - q.2) ^ 2)).sum / ((common.length : ℕ) : ℝ) :=
      div_nonneg (sum_sq_map_nonneg _ _) (Nat.cast_nonneg _)
    simp only [divOpt, sqrtOpt]
    rw [if_neg hn, Option.some_bind, if_pos hq]

theorem calculateEuclideanChecked_eq (common : List YPair) (m : NormalizationMethod) :
    calculateEuclideanChecked common m = Option.some (calculateEuclidean common m) := by
  unfold calculateEuclideanChecked calculateEuclidean
  split_ifs with h
  · rfl
  · rw [normalizeValuesChecked_eq, Option.some_bind, normalizeValuesChecked_eq,
      Option.some_bind]
    dsimp only
    simp only [sqrtOpt]
    rw [if_pos (sum_sq_map_nonneg _ _)]

theorem calculateCosineSimilarityChecked_eq (common : List YPair) :
    calculateCosineSimilarityChecked common
      = Option.some (calculateCosineSimilarity common) := by
  unfold calculateCosineSimilarityChecked calculateCosineSimilarity
  dsimp only
  simp only [sqrtOpt, divOpt]
  rw [if_pos (sum_mul_self_nonneg_f common (fun p => p.yA)), Option.some_bind,
    if_pos (sum_mul_self_nonneg_f common (fun p => p.yB)), Option.some_bind]
  split_ifs with h hprod
  · rfl
  · push_neg at h
    exact absurd (mul_eq_zero.1 hprod) (by push_neg; exact h)
  · rfl

theorem mapOpt_sid_terms :
    ∀ l : List (ℝ × ℝ), (∀ pr ∈ l, 0 < pr.1 ∧ 0 < pr.2) →
      mapOpt (fun pr => (logOpt pr.1).bind (fun lp => (logOpt pr.2).bind (fun lq =>
          Option.some ((pr.1 - pr.2) * (lp - lq))))) l
        = Option.some (l.map (fun pr =>
            (pr.1 - pr.2) * (Real.log pr.1 - Real.log pr.2))) := by
  intro l
  induction l with
  | nil => intro _; rfl
  | cons a t ih =>
      intro h
      have ha := h a (List.mem_cons_self a t)
      have ht := ih (fun pr hpr => h pr (List.mem_cons_of_mem a hpr))
      simp only [mapOpt, ht]
      simp [logOpt, ha.1, ha.2]

theorem floored_map_pos (common : List YPair) (f : YPair → ℝ) :
    ∀ x ∈ common.map (fun cp => max (1e-10 : ℝ) (f cp)), 0 < x := by
  intro x hx
  rcases List.mem_map.1 hx with ⟨c, _, rfl⟩
  exact lt_of_lt_of_le (by norm_num) (le_max_left _ _)

theorem floored_map_abs_sum_pos (common : List YPair) (f : YPair → ℝ)
    (hne : common ≠ []) :
    0 < ((common.map (fun cp => max (1e-10 : ℝ) (f cp))).map (fun x => |x|)).sum := by
  have hmap : (common.map (fun cp => max (1e-10 : ℝ) (f cp))).map (fun x => |x|)
      = common.map (fun cp => max (1e-10 : ℝ) (f cp)) :=
    calc (common.map (fun cp => max (1e-10 : ℝ) (f cp))).map (fun x => |x|)
        = (common.map (fun cp => max (1e-10 : ℝ) (f cp))).map (fun x => x) :=
          List.map_congr_left (fun x hx => abs_of_pos (floored_map_pos common f x hx))
      _ = common.map (fun cp => max (1e-10 : ℝ) (f cp)) := by simp
  rw [hmap]
  exact List.sum_pos _ (floored_map_pos common f) (by simpa using hne)

theorem calculateSIDChecked_eq (common : List YPair) :
    calculateSIDChecked common = Option.some (calculateSID common) := by
  unfold calculateSIDChecked calculateSID
  rw [normalizeValuesChecked_eq, Option.some_bind, normalizeValuesChecked_eq,
    Option.some_bind]
  dsimp only
  rcases eq_or_ne common [] with rfl | hne
  · simp [normalizeValues, mapOpt]
  · have hSA := floored_map_abs_sum_pos common (fun p => p.yA) hne
    have hSB := floored_map_abs_sum_pos common (fun p => p.yB) hne
    rw [normalizeValues_area_of_sum_ne hSA.ne.symm,
      normalizeValues_area_of_sum_ne hSB.ne.symm]
    rw [mapOpt_sid_terms _ ?_]
    · simp
    · rintro ⟨pa, pb⟩ hpr
      obtain ⟨h1, h2⟩ := List.of_mem_zip hpr
      constructor
      · rcases List.mem_map.1 h1 with ⟨x, hx, rfl⟩
        exact div_pos (floored_map_pos common (fun p => p.yA) x hx) hSA
      · rcases List.mem_map.1 h2 with ⟨x, hx, rfl⟩
        exact div_pos (floored_map_pos common (fun p => p.yB) x hx) hSB

/-- C3: every division-by-zero or out-of-domain path in the five metric
functions and in the normalizer is unreachable: each checked variant (which
returns `Option.none` exactly where the source would produce `NaN` or
`±Infinity`) always returns `Option.some` of the unchecked value, so on
finite real inputs every metric and the normalizer return only finite real
values. -/
theorem C3_metrics_always_finite :
    (∀ (v : List ℝ) (m : NormalizationMethod),
      normalizeValuesChecked v m = Option.some (normalizeValues v m)) ∧
    (∀ (common : List YPair) (m : NormalizationMethod),
      calculatePearsonChecked common = Option.some (calculatePearson common) ∧
      calculateCosineSimilarityChecked common
          = Option.some (calculateCosineSimilarity common) ∧
      calculateSIDChecked common = Option.some (calculateSID common) ∧
      calculateRMSEChecked common m = Option.some (calculateRMSE common m) ∧
      calculateEuclideanChecked common m = Option.some (calculateEuclidean common m)) :=
  ⟨normalizeValuesChecked_eq,
   fun common m =>
    ⟨calculatePearsonChecked_eq common, calculateCosineSimilarityChecked_eq common,
     calculateSIDChecked_eq common, calculateRMSEChecked_eq common m,
     calculateEuclideanChecked_eq common m⟩⟩
